import Mathlib

/-!
Verification of the cstex provenance-matching engine
(src/scripts/process-metadata.py and src/scripts/extract-values.py)
against its natural-language specification.

The Python sources are shallowly embedded: pure fragments become Lean
functions, Python exceptions become Except results, Python dicts become
insertion-ordered association lists, and the regular expressions the code
builds are embedded by their matching semantics.  Names follow the source
where Lean allows it.
-/

deriving instance DecidableEq for Except

namespace CSTex

/-- Document text is modelled as a list of characters so the scanners can
recurse over it. -/
abbrev Str := List Char

/-- A JSON scalar read from the execution log, modelled by its textual
rendering: the result of the Python str call on the parsed value. -/
structure PyVal where
  render : String
deriving Repr, DecidableEq

/-- One line of the execution log, as read by read_provenance_log in
extract-values.py: a JSON object.  A field is none when the key is absent
from the record. -/
structure LogEntry where
  type : Option String
  name : Option String
  value : Option PyVal
  filepath : Option String
  lineno : Option Int
deriving Repr, DecidableEq

/-- The ExtractedValue dataclass of extract-values.py.  In the dataclass
declaration value_type defaults to the string unknown. -/
structure ExtractedValue where
  name : String
  value : PyVal
  formatted_value : String
  step : String
  script : Option String
  value_type : String
  line : Option Int
deriving Repr, DecidableEq

/-- The PipelineStep dataclass of process-metadata.py: one step object of
the manifest, in declaration order of the pipeline list. -/
structure PipelineStep where
  name : String
  cmd : String
  inputs : List String
  outputs : List String
  flake : Option String := none
deriving Repr, DecidableEq

/-! ## Glob patterns and the regex the code builds from them

Both matchers run
  regex_pattern = output_pattern.replace("*", ".*").replace("?", ".")
  re.match(regex_pattern, candidate)
For a pattern whose characters are ordinary (no regex metacharacters other
than the star, the question mark and the dot itself), the built regex is a
sequence of three kinds of atoms: a star run (regex dot-star), a single
wildcard (regex dot, matching any character except a newline), and a literal
character.  re.match anchors at the start of the candidate only: it succeeds
when the regex matches some prefix of the candidate. -/

/-- One atom of the regex built by the replace calls. -/
inductive RTok where
  | star
  | dot
  | lit (c : Char)
deriving Repr, DecidableEq

/-- Tokenization of a glob pattern as the code rewrites it: a star becomes
dot-star, a question mark becomes a regex dot, a literal dot stays a regex
dot, every other character stands for itself. -/
def globTokens (p : Str) : List RTok :=
  p.map fun c =>
    if c = '*' then RTok.star
    else if c = '?' then RTok.dot
    else if c = '.' then RTok.dot
    else RTok.lit c

/-- Tokenization under the glob semantics the spec states: a star matches any
run, a question mark one character, and every other character (the dot
included) only itself. -/
def specGlobTokens (p : Str) : List RTok :=
  p.map fun c =>
    if c = '*' then RTok.star
    else if c = '?' then RTok.dot
    else RTok.lit c

/-- Whether a token list can match the empty string: only star atoms may
remain. -/
def allStarsNullable : List RTok → Bool
  | [] => true
  | RTok.star :: ps => allStarsNullable ps
  | RTok.dot :: _ => false
  | RTok.lit _ :: _ => false

/-- One character step of the prefix matcher: given the matcher for the rest
of the string, match the tokens against a string beginning with c.  The
regex dot of Python does not match a newline. -/
def reMatchStep (f : List RTok → Bool) (c : Char) : List RTok → Bool
  | [] => true
  | RTok.star :: ps => reMatchStep f c ps || ((c != '\n') && f (RTok.star :: ps))
  | RTok.dot :: ps => (c != '\n') && f ps
  | RTok.lit d :: ps => (d == c) && f ps

/-- re.match semantics of the built regex against a candidate: the token list
must match some prefix of the string (anchored at the start, free at the
end).  An exhausted token list accepts whatever remains. -/
def reMatch : Str → List RTok → Bool
  | [], ps => allStarsNullable ps
  | c :: cs, ps => reMatchStep (reMatch cs) c ps

/-- One character step of the full matcher: as reMatchStep, but an exhausted
token list rejects a nonempty remainder. -/
def globStep (f : List RTok → Bool) (c : Char) : List RTok → Bool
  | [] => false
  | RTok.star :: ps => globStep f c ps || ((c != '\n') && f (RTok.star :: ps))
  | RTok.dot :: ps => (c != '\n') && f ps
  | RTok.lit d :: ps => (d == c) && f ps

/-- Anchored full-string match of a token list built by the code (the regex
dot still refuses a newline): the tokens must consume the whole string. -/
def globFull : Str → List RTok → Bool
  | [], ps => allStarsNullable ps
  | c :: cs, ps => globStep (globFull cs) c ps

/-- One character step of the spec-side full matcher: the single-character
wildcard of the spec matches every character. -/
def specStep (f : List RTok → Bool) (c : Char) : List RTok → Bool
  | [] => false
  | RTok.star :: ps => specStep f c ps || f (RTok.star :: ps)
  | RTok.dot :: ps => f ps
  | RTok.lit d :: ps => (d == c) && f ps

/-- Anchored full-string glob match as the spec words it (Modelled from the
spec: the anchored full-string glob semantics the spec ascribes to the
matcher, for comparison against the code-side matcher reMatch). -/
def specGlobFull : Str → List RTok → Bool
  | [], ps => allStarsNullable ps
  | c :: cs, ps => specStep (specGlobFull cs) c ps

/-- The match the code performs on one pattern and one candidate name. -/
def codeGlobMatch (p s : String) : Bool :=
  reMatch s.data (globTokens p.data)

/-- The match the spec describes on one pattern and one candidate name. -/
def specGlobMatch (p s : String) : Bool :=
  specGlobFull s.data (specGlobTokens p.data)

/-! ## Pattern matching of artifacts and scripts to steps -/

/-- Accumulating loop behind pySplitWs: group maximal runs of non-whitespace
characters, the current group held reversed in acc. -/
def splitWsAux : Str → Str → List Str
  | [], acc => if acc.isEmpty then [] else [acc.reverse]
  | c :: rest, acc =>
    if c.isWhitespace then
      if acc.isEmpty then splitWsAux rest [] else acc.reverse :: splitWsAux rest []
    else splitWsAux rest (c :: acc)

/-- Python str.split() with no argument: split on whitespace runs, dropping
empty pieces. -/
def pySplitWs (s : String) : List String :=
  (splitWsAux s.data []).map String.mk

/-- Python str.endswith on a fixed suffix. -/
def strEndsWith (s suffix : String) : Bool :=
  List.isPrefixOf suffix.data.reverse s.data.reverse

/-- Whether pat occurs as a contiguous run inside hay. -/
def listContains (pat : Str) : Str → Bool
  | [] => pat.isEmpty
  | c :: rest => pat.isPrefixOf (c :: rest) || listContains pat rest

/-- Python substring containment: pat in hay. -/
def strContains (hay pat : String) : Bool :=
  listContains pat.data hay.data

/-- Whether some output pattern of the step matches the candidate, as the
inner loop of _match_artifact_to_step and _find_metadata_for_artifact
decides it. -/
def stepOutputsMatch (s : PipelineStep) (a : Str) : Bool :=
  s.outputs.any fun p => reMatch a (globTokens p.data)

/-- The ArtifactMetadata dataclass of process-metadata.py. -/
structure ArtifactMetadata where
  path : String
  step_name : String
  script_path : Option String
  line_number : Option Nat
  dependencies : List String
deriving Repr, DecidableEq

/-- _find_generating_script: first whitespace token of the command that ends
in .py and names an existing file (fs lists the files that exist), else the
first input pattern ending in .py. -/
def findGeneratingScript (fs : List String) (step : PipelineStep) : Option String :=
  match (pySplitWs step.cmd).find? (fun part => strEndsWith part ".py" && fs.contains part) with
  | some p => some p
  | none => step.inputs.find? fun ip => strEndsWith ip ".py"

/-- The metadata _match_artifact_to_step builds for a matching step. -/
def mkArtifactMeta (fs : List String) (s : PipelineStep) (a : Str) : ArtifactMetadata :=
  ⟨String.mk a, s.name, findGeneratingScript fs s, none, s.inputs⟩

/-- _match_artifact_to_step: walk the steps in declaration order and return
the metadata of the first step one of whose output patterns matches. -/
def matchArtifactToStep (fs : List String) : List PipelineStep → Str → Option ArtifactMetadata
  | [], _ => none
  | s :: rest, a =>
    if stepOutputsMatch s a then some (mkArtifactMeta fs s a)
    else matchArtifactToStep fs rest a

/-- _find_step_for_script of extract-values.py: the name of the first step
whose command text contains the script path as a substring. -/
def findStepForScript : List PipelineStep → String → Option String
  | [], _ => none
  | s :: rest, script =>
    if strContains s.cmd script then some s.name else findStepForScript rest script

/-- The metadata dict _find_metadata_for_artifact builds. -/
structure StepMeta where
  step : String
  script : String
  dependencies : List String
deriving Repr, DecidableEq

/-- _find_metadata_for_artifact of process-metadata.py: first step one of
whose output patterns matches the name.  The script entry takes the last
whitespace token of the command; on an empty command Python raises an
IndexError, modelled as an error result. -/
def findMetadataForArtifact : List PipelineStep → Str → Except String (Option StepMeta)
  | [], _ => Except.ok none
  | s :: rest, a =>
    if stepOutputsMatch s a then
      match (pySplitWs s.cmd).getLast? with
      | some tok => Except.ok (some ⟨s.name, tok, s.inputs⟩)
      | none => Except.error "IndexError"
    else findMetadataForArtifact rest a

/-! ## The marker scanner of discover_artifacts_in_latex

The patterns dict maps the kind value to the regex for csfvaluelink and the
kind artifact to the regex for csflink; re.finditer walks the text left to
right collecting non-overlapping matches.  Each regex is a fixed literal
head, then one or more characters other than a closing brace, then the
closing brace. -/

/-- A regex match of one marker pattern: start offset, captured name, end
offset. -/
structure MarkerMatch where
  kind : String
  start : Nat
  name : Str
  stop : Nat
deriving Repr, DecidableEq

/-- Try to match one marker regex at the head of the string: the literal
head, then a maximal nonempty run of characters other than a closing brace,
then the closing brace.  Returns the captured name and the match length. -/
def tryMarker (marker s : Str) : Option (Str × Nat) :=
  if marker.isPrefixOf s then
    let rest := s.drop marker.length
    let name := rest.takeWhile fun c => c != '\x7d'
    let after := rest.dropWhile fun c => c != '\x7d'
    if name ≠ [] ∧ after ≠ [] then some (name, marker.length + name.length + 1)
    else none
  else none

/-- The scanning loop of re.finditer over one marker regex, written with a
fuel argument to make the recursion structural: each step consumes at least
one character, so any fuel of at least the string length computes the full
scan.  At each position try the regex; on a match emit it with its offsets
and resume after the match end, else advance one character. -/
def scanMarkersF (marker : Str) : Nat → Str → Nat → List (Nat × Str × Nat)
  | 0, _, _ => []
  | _ + 1, [], _ => []
  | fuel + 1, c :: rest, pos =>
    match tryMarker marker (c :: rest) with
    | some (nm, len) =>
        (pos, nm, pos + len) :: scanMarkersF marker fuel (rest.drop (len - 1)) (pos + len)
    | none => scanMarkersF marker fuel rest (pos + 1)

/-- re.finditer over one marker regex: scan left to right, emit each
non-overlapping match with its offsets, resume after the match end. -/
def scanMarkers (marker : Str) (s : Str) (pos : Nat) : List (Nat × Str × Nat) :=
  scanMarkersF marker s.length s pos

/-- The literal head of the csfvaluelink marker regex. -/
def valueMarkerChars : Str := "\\csfvaluelink\x7b".data

/-- The literal head of the csflink marker regex. -/
def artifactMarkerChars : Str := "\\csflink\x7b".data

/-- The outer loop of discover_artifacts_in_latex: all matches of the value
marker in text order, then all matches of the artifact marker in text order
(the iteration order of the patterns dict). -/
def findMarkers (content : Str) : List MarkerMatch :=
  ((scanMarkers valueMarkerChars content 0).map fun r =>
    MarkerMatch.mk "value" r.1 r.2.1 r.2.2)
  ++ ((scanMarkers artifactMarkerChars content 0).map fun r =>
    MarkerMatch.mk "artifact" r.1 r.2.1 r.2.2)

/-- The dict discover_artifacts_in_latex appends for a marker with found
metadata. -/
structure DiscoveredArtifact where
  type : String
  name : Str
  match_start : Nat
  match_end : Nat
  step : String
  script : String
  dependencies : List String
deriving Repr, DecidableEq

/-- The artifact entry built from a marker match and its step metadata. -/
def mkDiscovered (m : MarkerMatch) (md : StepMeta) : DiscoveredArtifact :=
  ⟨m.kind, m.name, m.start, m.stop, md.step, md.script, md.dependencies⟩

/-- The accumulation loop of discover_artifacts_in_latex: a marker with
metadata is appended; a marker without metadata only prints a warning and is
dropped from the output. -/
def discoverGo (steps : List PipelineStep) :
    List MarkerMatch → List DiscoveredArtifact → Except String (List DiscoveredArtifact)
  | [], acc => Except.ok acc
  | m :: ms, acc =>
    match findMetadataForArtifact steps m.name with
    | Except.error e => Except.error e
    | Except.ok none => discoverGo steps ms acc
    | Except.ok (some md) => discoverGo steps ms (acc ++ [mkDiscovered m md])

/-- discover_artifacts_in_latex on already-read document text. -/
def discoverArtifactsInLatex (steps : List PipelineStep) (content : Str) :
    Except String (List DiscoveredArtifact) :=
  discoverGo steps (findMarkers content) []

/-- The per-marker result of the discovery loop, for stating theorems about
its output: some entry when the marker has metadata, none when it is
dropped or the lookup errors. -/
def markerToArtifact (steps : List PipelineStep) (m : MarkerMatch) :
    Option DiscoveredArtifact :=
  match findMetadataForArtifact steps m.name with
  | Except.ok (some md) => some (mkDiscovered m md)
  | _ => none

/-- Whether a marker finds step metadata. -/
def markerMatched (steps : List PipelineStep) (m : MarkerMatch) : Bool :=
  match findMetadataForArtifact steps m.name with
  | Except.ok (some _) => true
  | _ => false

/-! ## The value log reader and its reduction -/

/-- Python dict assignment d[k] = v on an insertion-ordered association
list: an existing key keeps its position and takes the new value, a new key
is appended. -/
def dictInsert {V : Type} : List (String × V) → String → V → List (String × V)
  | [], k, v => [(k, v)]
  | (k0, v0) :: rest, k, v =>
    if k0 = k then (k, v) :: rest else (k0, v0) :: dictInsert rest k v

/-- Python dict lookup d[k]. -/
def dictLookup {V : Type} : List (String × V) → String → Option V
  | [], _ => none
  | (k0, v0) :: rest, k => if k0 = k then some v0 else dictLookup rest k

/-- Python x or y on an optional string: y when x is absent or empty
(falsy), else the string itself. -/
def pyOr (o : Option String) (d : String) : String :=
  match o with
  | none => d
  | some s => if s = "" then d else s

/-- The ExtractedValue the loop body of extract_values_from_log constructs
for one consumed record: formatted_value is the str rendering, step falls
back to unknown, value_type is left at its dataclass default unknown. -/
def mkExtracted (cfg : List PipelineStep) (n : String) (v : PyVal) (fp : String)
    (ln : Int) : ExtractedValue :=
  ⟨n, v, v.render, pyOr (findStepForScript cfg fp) "unknown", some fp, "unknown", some ln⟩

/-- The loop of extract_values_from_log: skip records whose type is not the
string value; read name, value, filepath and lineno by direct indexing, so a
missing key raises a KeyError; write the built value into the dict under its
name. -/
def extractAux (cfg : List PipelineStep) :
    List LogEntry → List (String × ExtractedValue) →
    Except String (List (String × ExtractedValue))
  | [], acc => Except.ok acc
  | e :: es, acc =>
    if e.type ≠ some "value" then extractAux cfg es acc
    else
      match e.name with
      | none => Except.error "KeyError: name"
      | some n =>
        match e.value with
        | none => Except.error "KeyError: value"
        | some v =>
          match e.filepath with
          | none => Except.error "KeyError: filepath"
          | some fp =>
            match e.lineno with
            | none => Except.error "KeyError: lineno"
            | some ln => extractAux cfg es (dictInsert acc n (mkExtracted cfg n v fp ln))

/-- extract_values_from_log over an already-read list of log records. -/
def extractValuesFromLog (cfg : List PipelineStep) (entries : List LogEntry) :
    Except String (List (String × ExtractedValue)) :=
  extractAux cfg entries []

/-- The ExtractedValue a complete record reduces to, for stating theorems:
on a record that extraction consumed, each field is present and the
defaults are never taken. -/
def evOfEntry (cfg : List PipelineStep) (e : LogEntry) : ExtractedValue :=
  mkExtracted cfg (e.name.getD "") (e.value.getD ⟨""⟩) (e.filepath.getD "") (e.lineno.getD 0)

/-- Fold tracking the last record of type value carrying the given name. -/
def lastValueRecordAux (n : String) :
    List LogEntry → Option LogEntry → Option LogEntry
  | [], cur => cur
  | e :: es, cur =>
    lastValueRecordAux n es
      (if e.type = some "value" ∧ e.name = some n then some e else cur)

/-- The last record of type value carrying the given name, in file order. -/
def lastValueRecord (n : String) (entries : List LogEntry) : Option LogEntry :=
  lastValueRecordAux n entries none

/-- Sequence the per-line JSON parses of the log file: the first malformed
line raises. -/
def seqLines : List (Except String LogEntry) → Except String (List LogEntry)
  | [] => Except.ok []
  | Except.error e :: _ => Except.error e
  | Except.ok x :: rest => (seqLines rest).map fun xs => x :: xs

/-- read_provenance_log: a missing log file yields the empty list, not a
failure; otherwise every line must parse. -/
def readProvenanceLog (file : Option (List (Except String LogEntry))) :
    Except String (List LogEntry) :=
  match file with
  | none => Except.ok []
  | some lines => seqLines lines

/-- extract_values_from_log including its call to read_provenance_log. -/
def extractFromFile (cfg : List PipelineStep)
    (file : Option (List (Except String LogEntry))) :
    Except String (List (String × ExtractedValue)) :=
  match readProvenanceLog file with
  | Except.error e => Except.error e
  | Except.ok entries => extractValuesFromLog cfg entries

/-! ## The injection table generator -/

/-- The fixed header lines of generate_values_tex, in which the second line
interpolates the number of values. -/
def headerLines (n : Nat) : List String :=
  ["% CSF Values - Auto-generated by extract-values.py",
   "% Generated from " ++ toString n ++ " statistical annotations",
   "% Do not edit manually - regenerate with \x27cstex-compile\x27",
   ""]

/-- The fixed trailing lines of generate_values_tex. -/
def trailerLines : List String :=
  ["", "% Mark values as cached", "\\csfvaluescachedtrue", ""]

/-- One definition line, as the f-string of generate_values_tex renders
it. -/
def defLine (name : String) (ev : ExtractedValue) : String :=
  "\\csfdefinevalue\x7b" ++ name ++ "\x7d\x7b" ++ ev.value.render ++ "\x7d\x7b"
    ++ ev.step ++ "\x7d\x7b" ++ ev.value_type ++ "\x7d"

/-- The fields of one dict item that the rendering reads. -/
def projEV (p : String × ExtractedValue) : String × String × String × String :=
  (p.1, p.2.value.render, p.2.step, p.2.value_type)

/-- A definition line as a function of the fields the rendering reads. -/
def defLineOf (q : String × String × String × String) : String :=
  "\\csfdefinevalue\x7b" ++ q.1 ++ "\x7d\x7b" ++ q.2.1 ++ "\x7d\x7b"
    ++ q.2.2.1 ++ "\x7d\x7b" ++ q.2.2.2 ++ "\x7d"

/-- The line list generate_values_tex joins for a nonempty value dict. -/
def generateValuesTexLines (values : List (String × ExtractedValue)) : List String :=
  headerLines values.length
    ++ (values.map fun p => defLine p.1 p.2)
    ++ trailerLines

/-- generate_values_tex: the no-values marker on an empty dict, else the
header, one definition line per value in dict iteration order, and the
cached-values trailer, joined with newlines. -/
def generateValuesTex (values : List (String × ExtractedValue)) : String :=
  if values.isEmpty then "% No values extracted\n"
  else String.intercalate "\n" (generateValuesTexLines values)

/-- The full pipeline from log file to injection table text. -/
def renderFromFile (cfg : List PipelineStep)
    (file : Option (List (Except String LogEntry))) : Except String String :=
  (extractFromFile cfg file).map generateValuesTex

/-- Recognizer for a definition line of the injection table. -/
def isDefLine (l : String) : Bool :=
  List.isPrefixOf "\\csfdefinevalue\x7b".data l.data

/-! ## Lemmas about the regex matchers -/

/-- A token list that can match the empty string matches every string under
the prefix matcher: the regex consumes the empty prefix. -/
theorem allStars_reMatch :
    ∀ ps : List RTok, allStarsNullable ps = true → ∀ s : Str, reMatch s ps = true := by
  intro ps
  induction ps with
  | nil =>
    intro _ s
    cases s <;> simp [reMatch, reMatchStep, allStarsNullable]
  | cons p ps ih =>
    intro h s
    cases p with
    | star =>
      have h' : allStarsNullable ps = true := by simpa [allStarsNullable] using h
      cases s with
      | nil => simpa [reMatch, allStarsNullable] using h
      | cons c cs =>
        have hm : reMatch (c :: cs) ps = true := ih h' (c :: cs)
        simp only [reMatch, reMatchStep, Bool.or_eq_true]
        exact Or.inl (by simpa [reMatch] using hm)
    | dot => simp [allStarsNullable] at h
    | lit d => simp [allStarsNullable] at h

/-- A full match of a prefix extends to a prefix match of any longer
string. -/
theorem globFull_reMatch :
    ∀ (t : Str) (ps : List RTok) (r : Str),
      globFull t ps = true → reMatch (t ++ r) ps = true := by
  intro t
  induction t with
  | nil =>
    intro ps r h
    exact allStars_reMatch ps (by simpa [globFull] using h) r
  | cons c cs ih =>
    intro ps r
    induction ps with
    | nil =>
      intro h
      simp [globFull, globStep] at h
    | cons p ps' ihp =>
      intro h
      cases p with
      | star =>
        simp only [globFull, globStep, Bool.or_eq_true, Bool.and_eq_true] at h
        rcases h with h | ⟨hnl, h⟩
        · have := ihp (by simpa [globFull] using h)
          simp only [List.cons_append, reMatch, reMatchStep, Bool.or_eq_true]
          exact Or.inl (by simpa [List.cons_append, reMatch] using this)
        · have := ih (RTok.star :: ps') r h
          simp only [List.cons_append, reMatch, reMatchStep, Bool.or_eq_true,
            Bool.and_eq_true]
          exact Or.inr ⟨hnl, this⟩
      | dot =>
        simp only [globFull, globStep, Bool.and_eq_true] at h
        simp only [List.cons_append, reMatch, reMatchStep, Bool.and_eq_true]
        exact ⟨h.1, ih ps' r h.2⟩
      | lit d =>
        simp only [globFull, globStep, Bool.and_eq_true] at h
        simp only [List.cons_append, reMatch, reMatchStep, Bool.and_eq_true]
        exact ⟨h.1, ih ps' r h.2⟩

/-- A full match stays a full match after a star token is pushed in front:
the star consumes nothing. -/
theorem globFull_star_cons (u : Str) (ps : List RTok)
    (h : globFull u ps = true) : globFull u (RTok.star :: ps) = true := by
  cases u with
  | nil => simpa [globFull, allStarsNullable] using h
  | cons d us =>
    simp only [globFull, globStep, Bool.or_eq_true]
    exact Or.inl (by simpa [globFull] using h)

/-- A successful prefix match exhibits a fully matched prefix. -/
theorem reMatch_exists :
    ∀ (s : Str) (ps : List RTok),
      reMatch s ps = true → ∃ t, t <+: s ∧ globFull t ps = true := by
  intro s
  induction s with
  | nil =>
    intro ps h
    exact ⟨[], List.nil_prefix, by simpa [reMatch, globFull] using h⟩
  | cons c cs ih =>
    intro ps
    induction ps with
    | nil =>
      intro _
      exact ⟨[], List.nil_prefix, by simp [globFull, allStarsNullable]⟩
    | cons p ps' ihp =>
      intro h
      cases p with
      | star =>
        simp only [reMatch, reMatchStep, Bool.or_eq_true, Bool.and_eq_true] at h
        rcases h with h | ⟨hnl, h⟩
        · obtain ⟨t, hpre, hfull⟩ := ihp (by simpa [reMatch] using h)
          exact ⟨t, hpre, globFull_star_cons t ps' hfull⟩
        · obtain ⟨t, hpre, hfull⟩ := ih (RTok.star :: ps') h
          refine ⟨c :: t, List.cons_prefix_cons.mpr ⟨rfl, hpre⟩, ?_⟩
          simp only [globFull, globStep, Bool.or_eq_true, Bool.and_eq_true]
          exact Or.inr ⟨hnl, hfull⟩
      | dot =>
        simp only [reMatch, reMatchStep, Bool.and_eq_true] at h
        obtain ⟨t, hpre, hfull⟩ := ih ps' h.2
        refine ⟨c :: t, List.cons_prefix_cons.mpr ⟨rfl, hpre⟩, ?_⟩
        simp only [globFull, globStep, Bool.and_eq_true]
        exact ⟨h.1, hfull⟩
      | lit d =>
        simp only [reMatch, reMatchStep, Bool.and_eq_true] at h
        obtain ⟨t, hpre, hfull⟩ := ih ps' h.2
        refine ⟨c :: t, List.cons_prefix_cons.mpr ⟨rfl, hpre⟩, ?_⟩
        simp only [globFull, globStep, Bool.and_eq_true]
        exact ⟨h.1, hfull⟩

/-! ## Lemmas about the dict embedding and log reduction -/

/-- Lookup after a Python dict write: the written key reads the new value,
every other key is untouched. -/
theorem dictLookup_dictInsert {V : Type} (d : List (String × V)) (k : String)
    (v : V) (n : String) :
    dictLookup (dictInsert d k v) n = if k = n then some v else dictLookup d n := by
  induction d with
  | nil => by_cases h : k = n <;> simp [dictInsert, dictLookup, h]
  | cons p rest ih =>
    obtain ⟨k0, v0⟩ := p
    by_cases h : k0 = k
    · subst h
      by_cases hkn : k0 = n <;> simp [dictInsert, dictLookup, hkn]
    · by_cases hk0n : k0 = n <;> by_cases hkn : k = n <;>
        simp_all [dictInsert, dictLookup]

/-- The reduction invariant of extract_values_from_log: relative to an
accumulator whose entry at the observed name reflects the latest consumed
record so far, the final dict entry at that name reflects the last record of
type value carrying it. -/
theorem extractAux_lookup (cfg : List PipelineStep) (n : String) :
    ∀ (entries : List LogEntry) (acc : List (String × ExtractedValue))
      (cur : Option LogEntry) (vs : List (String × ExtractedValue)),
      extractAux cfg entries acc = Except.ok vs →
      dictLookup acc n = cur.map (evOfEntry cfg) →
      dictLookup vs n = (lastValueRecordAux n entries cur).map (evOfEntry cfg) := by
  intro entries
  induction entries with
  | nil =>
    intro acc cur vs h hinv
    simp only [extractAux, Except.ok.injEq] at h
    subst h
    simpa [lastValueRecordAux] using hinv
  | cons e es ih =>
    intro acc cur vs h hinv
    obtain ⟨et, en, ev0, efp, eln⟩ := e
    by_cases ht : et = some "value"
    · subst ht
      cases en with
      | none => simp [extractAux] at h
      | some n' =>
        cases ev0 with
        | none => simp [extractAux] at h
        | some v =>
          cases efp with
          | none => simp [extractAux] at h
          | some fp =>
            cases eln with
            | none => simp [extractAux] at h
            | some ln =>
              have h' : extractAux cfg es (dictInsert acc n' (mkExtracted cfg n' v fp ln))
                  = Except.ok vs := by simpa [extractAux] using h
              rw [show lastValueRecordAux n
                    ((⟨some "value", some n', some v, some fp, some ln⟩ : LogEntry) :: es) cur
                  = lastValueRecordAux n es
                      (if (some "value" : Option String) = some "value" ∧
                          (some n' : Option String) = some n
                        then some (⟨some "value", some n', some v, some fp, some ln⟩ : LogEntry)
                        else cur) from rfl]
              refine ih _ _ _ h' ?_
              rw [dictLookup_dictInsert]
              by_cases hname : n' = n
              · subst hname
                rw [if_pos rfl, if_pos ⟨rfl, rfl⟩]
                simp [evOfEntry]
              · rw [if_neg hname, if_neg (by rintro ⟨-, hc⟩; exact hname (by
                  injection hc))]
                exact hinv
    · have h' : extractAux cfg es acc = Except.ok vs := by
        rw [extractAux, if_pos (by simpa using ht)] at h
        exact h
      rw [show lastValueRecordAux n ((⟨et, en, ev0, efp, eln⟩ : LogEntry) :: es) cur
          = lastValueRecordAux n es
              (if et = some "value" ∧ en = some n
                then some (⟨et, en, ev0, efp, eln⟩ : LogEntry) else cur) from rfl]
      rw [if_neg (by rintro ⟨hc, -⟩; exact ht hc)]
      exact ih _ _ _ h' hinv

/-- When extraction reaches a record of type value missing a required key,
the whole run fails, whatever came before or after. -/
theorem extractAux_broken (cfg : List PipelineStep) (e : LogEntry)
    (post : List LogEntry) (htype : e.type = some "value")
    (hmiss : e.name = none ∨ e.value = none ∨ e.filepath = none ∨ e.lineno = none) :
    ∀ (pre : List LogEntry) (acc : List (String × ExtractedValue))
      (vs : List (String × ExtractedValue)),
      extractAux cfg (pre ++ e :: post) acc ≠ Except.ok vs := by
  intro pre
  induction pre with
  | nil =>
    intro acc vs h
    rw [List.nil_append] at h
    obtain ⟨et, en, ev0, efp, eln⟩ := e
    simp only [LogEntry.type] at htype
    subst htype
    simp only [LogEntry.name, LogEntry.value, LogEntry.filepath, LogEntry.lineno] at hmiss
    cases en with
    | none => simp [extractAux] at h
    | some n' =>
      cases ev0 with
      | none => simp [extractAux] at h
      | some v =>
        cases efp with
        | none => simp [extractAux] at h
        | some fp =>
          cases eln with
          | none => simp [extractAux] at h
          | some ln => simp at hmiss
  | cons p pre' ih =>
    intro acc vs h
    rw [List.cons_append] at h
    obtain ⟨pt, pn, pv, pf, pl⟩ := p
    by_cases hp : pt = some "value"
    · subst hp
      cases pn with
      | none => simp [extractAux] at h
      | some n' =>
        cases pv with
        | none => simp [extractAux] at h
        | some v =>
          cases pf with
          | none => simp [extractAux] at h
          | some fp =>
            cases pl with
            | none => simp [extractAux] at h
            | some ln =>
              exact ih _ vs (by simpa [extractAux] using h)
    · refine ih acc vs ?_
      rw [extractAux, if_pos (by simpa using hp)] at h
      exact h

/-! ## Lemmas about the marker scanner -/

/-- The length a successful marker match reports: the literal head, the
captured name, the closing brace. -/
theorem tryMarker_len {marker s nm : Str} {len : Nat}
    (h : tryMarker marker s = some (nm, len)) :
    len = marker.length + nm.length + 1 := by
  simp only [tryMarker] at h
  split at h
  · split at h
    · rw [Option.some.injEq, Prod.mk.injEq] at h
      obtain ⟨h1, h2⟩ := h
      subst h1
      exact h2.symm
    · cases h
  · cases h

/-- Every emitted match starts at or after the scanning position. -/
theorem scanMarkersF_mem_le (marker : Str) :
    ∀ (fuel : Nat) (s : Str) (pos : Nat) (x : Nat × Str × Nat),
      x ∈ scanMarkersF marker fuel s pos → pos ≤ x.1 := by
  intro fuel
  induction fuel with
  | zero => intro s pos x hx; simp [scanMarkersF] at hx
  | succ fuel ih =>
    intro s pos x hx
    cases s with
    | nil => simp [scanMarkersF] at hx
    | cons c rest =>
      rw [scanMarkersF] at hx
      cases htm : tryMarker marker (c :: rest) with
      | some r =>
        obtain ⟨nm, len⟩ := r
        rw [htm] at hx
        rcases List.mem_cons.mp hx with hx | hx
        · subst hx; exact Nat.le_refl _
        · exact Nat.le_trans (Nat.le_add_right _ _) (ih _ _ _ hx)
      | none =>
        rw [htm] at hx
        exact Nat.le_trans (Nat.le_add_right pos 1) (ih _ _ _ hx)

/-- The matches of one scan appear in strictly increasing start order. -/
theorem scanMarkersF_chain (marker : Str) :
    ∀ (fuel : Nat) (s : Str) (pos : Nat),
      List.Chain' (fun a b => a.1 < b.1) (scanMarkersF marker fuel s pos) := by
  intro fuel
  induction fuel with
  | zero => intro s pos; simp [scanMarkersF]
  | succ fuel ih =>
    intro s pos
    cases s with
    | nil => simp [scanMarkersF]
    | cons c rest =>
      rw [scanMarkersF]
      cases htm : tryMarker marker (c :: rest) with
      | some r =>
        obtain ⟨nm, len⟩ := r
        refine List.chain'_cons'.mpr ⟨?_, ih _ _⟩
        intro y hy
        have hmem := List.mem_of_mem_head? hy
        have h1 := scanMarkersF_mem_le marker fuel _ _ y hmem
        have h2 : 1 ≤ len := by
          have := tryMarker_len htm
          omega
        have h3 : pos < pos + len := by omega
        exact Nat.lt_of_lt_of_le h3 h1
      | none => exact ih _ _

/-- Scanning walks through a backslash-free region one character at a time:
no marker can start there, because every marker begins with a backslash. -/
theorem scanMarkersF_skip (mrest : Str) :
    ∀ (pre : Str) (tail : Str) (pos : Nat), (∀ c ∈ pre, c ≠ '\\') →
      scanMarkersF ('\\' :: mrest) (pre ++ tail).length (pre ++ tail) pos
        = scanMarkersF ('\\' :: mrest) tail.length tail (pos + pre.length) := by
  intro pre
  induction pre with
  | nil => intro tail pos _; simp
  | cons c pre' ih =>
    intro tail pos h
    have hc : c ≠ '\\' := h c (List.mem_cons_self c pre')
    have hb : ('\\' == c) = false := by
      refine beq_eq_false_iff_ne.mpr ?_
      exact fun hh => hc hh.symm
    have hpb : List.isPrefixOf ('\\' :: mrest) (c :: (pre' ++ tail)) = false := by
      simp [List.isPrefixOf, hb]
    have htm : tryMarker ('\\' :: mrest) (c :: (pre' ++ tail)) = none := by
      simp [tryMarker, hpb]
    rw [List.cons_append, List.length_cons, scanMarkersF, htm]
    rw [ih tail (pos + 1) fun d hd => h d (List.mem_cons_of_mem c hd)]
    have harith : pos + 1 + pre'.length = pos + (c :: pre').length := by
      simp [List.length_cons]
      omega
    rw [harith]

/-- The maximal brace-free run of a name followed by a closing brace is the
name itself. -/
theorem takeWhile_brace (post : Str) :
    ∀ name : Str, '\x7d' ∉ name →
      (name ++ '\x7d' :: post).takeWhile (fun c => c != '\x7d') = name
      ∧ (name ++ '\x7d' :: post).dropWhile (fun c => c != '\x7d') = '\x7d' :: post := by
  intro name
  induction name with
  | nil => intro _; simp [List.takeWhile, List.dropWhile]
  | cons c name' ih =>
    intro h
    have hc : c ≠ '\x7d' := by
      intro hh
      exact h (hh ▸ List.mem_cons_self c name')
    have hcb : (c != '\x7d') = true := by simpa using hc
    obtain ⟨h1, h2⟩ := ih fun hm => h (List.mem_cons_of_mem c hm)
    refine ⟨?_, ?_⟩
    · simp [List.takeWhile_cons, hcb, h1]
    · simp [List.dropWhile_cons, hcb, h2]

/-- The marker regex matches exactly the marker head, the brace-free name
and the closing brace when tried right at a literal marker occurrence. -/
theorem tryMarker_at (marker name post : Str) (hn : name ≠ []) (hb : '\x7d' ∉ name) :
    tryMarker marker (marker ++ (name ++ '\x7d' :: post))
      = some (name, marker.length + name.length + 1) := by
  have hp : marker.isPrefixOf (marker ++ (name ++ '\x7d' :: post)) = true :=
    List.isPrefixOf_iff_prefix.mpr (List.prefix_append _ _)
  have hd : (marker ++ (name ++ '\x7d' :: post)).drop marker.length
      = name ++ '\x7d' :: post := List.drop_left _ _
  obtain ⟨h1, h2⟩ := takeWhile_brace post name hb
  simp [tryMarker, hp, hd, h1, h2, hn]

/-- A scan whose input starts at a literal marker occurrence emits that
occurrence first. -/
theorem scanMarkersF_at (marker name post : Str) (pos fuel : Nat)
    (hfuel : fuel = (marker ++ (name ++ '\x7d' :: post)).length)
    (hm : marker ≠ []) (hn : name ≠ []) (hb : '\x7d' ∉ name) :
    ∃ tl, scanMarkersF marker fuel (marker ++ (name ++ '\x7d' :: post)) pos
      = (pos, name, pos + (marker.length + name.length + 1)) :: tl := by
  cases marker with
  | nil => exact absurd rfl hm
  | cons m0 mrest =>
    subst hfuel
    have ht := tryMarker_at (m0 :: mrest) name post hn hb
    rw [List.cons_append] at ht
    rw [List.cons_append, List.length_cons, scanMarkersF, ht]
    exact ⟨_, rfl⟩

/-- Composition: in a document made of a backslash-free region followed by a
literal marker occurrence, the scan finds the marker at the offset of the
region end. -/
theorem scanMarkers_found (mrest pre name post : Str)
    (hpre : ∀ c ∈ pre, c ≠ '\\') (hn : name ≠ []) (hb : '\x7d' ∉ name) :
    ∃ tl, scanMarkers ('\\' :: mrest) (pre ++ (('\\' :: mrest) ++ (name ++ '\x7d' :: post))) 0
      = (pre.length, name, pre.length + (('\\' :: mrest).length + name.length + 1)) :: tl := by
  unfold scanMarkers
  rw [scanMarkersF_skip mrest pre _ 0 hpre]
  have hat := scanMarkersF_at ('\\' :: mrest) name post (0 + pre.length) _ rfl
    (List.cons_ne_nil _ _) hn hb
  simpa using hat

/-! ## Lemmas about the discovery loop -/

/-- The discovery loop keeps exactly the markers whose metadata lookup
finds a step, in marker order, appended to the accumulator. -/
theorem discoverGo_ok (steps : List PipelineStep) :
    ∀ (ms : List MarkerMatch) (acc arts : List DiscoveredArtifact),
      discoverGo steps ms acc = Except.ok arts →
      arts = acc ++ ms.filterMap (markerToArtifact steps) := by
  intro ms
  induction ms with
  | nil =>
    intro acc arts h
    simp only [discoverGo, Except.ok.injEq] at h
    subst h
    simp
  | cons m ms ih =>
    intro acc arts h
    rw [discoverGo] at h
    cases hmd : findMetadataForArtifact steps m.name with
    | error e => rw [hmd] at h; cases h
    | ok o =>
      cases o with
      | none =>
        rw [hmd] at h
        rw [ih _ _ h]
        simp [List.filterMap_cons, markerToArtifact, hmd]
      | some md =>
        rw [hmd] at h
        rw [ih _ _ h]
        simp [List.filterMap_cons, markerToArtifact, hmd]

/-- A kept discovery entry carries the offsets and kind of its marker. -/
theorem markerToArtifact_fields {steps : List PipelineStep} {m : MarkerMatch}
    {a : DiscoveredArtifact} (h : markerToArtifact steps m = some a) :
    a.match_start = m.start ∧ a.type = m.kind := by
  unfold markerToArtifact at h
  cases hmd : findMetadataForArtifact steps m.name with
  | error e => rw [hmd] at h; cases h
  | ok o =>
    cases o with
    | none => rw [hmd] at h; cases h
    | some md =>
      rw [hmd] at h
      rw [Option.some.injEq] at h
      subst h
      exact ⟨rfl, rfl⟩

/-- Keeping a marker is the same as its metadata lookup finding a step. -/
theorem markerToArtifact_isSome (steps : List PipelineStep) (m : MarkerMatch) :
    (markerToArtifact steps m).isSome = markerMatched steps m := by
  unfold markerToArtifact markerMatched
  cases findMetadataForArtifact steps m.name with
  | error e => rfl
  | ok o => cases o <;> rfl

/-- Counting kept entries by filtering on keeping. -/
theorem length_filterMap_eq {α β : Type} (f : α → Option β) :
    ∀ l : List α, (l.filterMap f).length = (l.filter fun a => (f a).isSome).length := by
  intro l
  induction l with
  | nil => rfl
  | cons a l ih =>
    cases hfa : f a with
    | none => simp [List.filterMap_cons, List.filter_cons, hfa, ih]
    | some b => simp [List.filterMap_cons, List.filter_cons, hfa, ih]

/-- The start offsets of the kept entries form a subsequence of the start
offsets of the scanned markers. -/
theorem filterMap_starts_sublist (steps : List PipelineStep) :
    ∀ ms : List MarkerMatch,
      (((ms.filterMap (markerToArtifact steps)).map fun a => a.match_start)).Sublist
        (ms.map fun m => m.start) := by
  intro ms
  induction ms with
  | nil => simp
  | cons m ms ih =>
    cases hma : markerToArtifact steps m with
    | none =>
      simp only [List.filterMap_cons, hma, List.map_cons]
      exact ih.cons _
    | some a =>
      have hs := (markerToArtifact_fields hma).1
      simp only [List.filterMap_cons, hma, List.map_cons]
      rw [hs]
      exact ih.cons₂ _

/-- Every kept entry from a same-kind marker list carries that kind. -/
theorem mem_filterMap_type (steps : List PipelineStep) (ms : List MarkerMatch)
    (k : String) (hk : ∀ m ∈ ms, m.kind = k) :
    ∀ a ∈ ms.filterMap (markerToArtifact steps), a.type = k := by
  intro a ha
  obtain ⟨m, hm, hma⟩ := List.mem_filterMap.mp ha
  rw [(markerToArtifact_fields hma).2]
  exact hk m hm

/-- The kept entries of one scanning pass keep strictly increasing start
offsets. -/
theorem chain_filterMap_scan (steps : List PipelineStep) (k : String)
    (scanRes : List (Nat × Str × Nat))
    (hchain : List.Chain' (fun a b => a.1 < b.1) scanRes) :
    List.Chain' (· < ·)
      ((((scanRes.map fun r => MarkerMatch.mk k r.1 r.2.1 r.2.2).filterMap
        (markerToArtifact steps)).map fun a => a.match_start)) := by
  have hsub := filterMap_starts_sublist steps
    (scanRes.map fun r => MarkerMatch.mk k r.1 r.2.1 r.2.2)
  have hmap : ((scanRes.map fun r => MarkerMatch.mk k r.1 r.2.1 r.2.2).map
      fun m => m.start) = scanRes.map fun r => r.1 := by
    rw [List.map_map]
    rfl
  rw [hmap] at hsub
  have hchain2 : List.Chain' (· < ·) (scanRes.map fun r => r.1) :=
    (List.chain'_map _).mpr hchain
  exact hchain2.sublist hsub

/-! ## Lemmas about the injection table renderer -/

/-- Every rendered definition line is recognized as one. -/
theorem isDefLine_defLine (n : String) (ev : ExtractedValue) :
    isDefLine (defLine n ev) = true := by
  unfold isDefLine defLine
  apply List.isPrefixOf_iff_prefix.mpr
  simp only [String.data_append, List.append_assoc]
  exact List.prefix_append _ _

/-- The count header line is no definition line, whatever the count. -/
theorem isDefLine_header2 (n : Nat) :
    isDefLine ("% Generated from " ++ toString n ++ " statistical annotations")
      = false := by
  unfold isDefLine
  rw [String.data_append, String.data_append]
  rw [show ("% Generated from " : String).data
      = '%' :: " Generated from ".data from by decide]
  rw [show ("\\csfdefinevalue\x7b" : String).data
      = '\\' :: "csfdefinevalue\x7b".data from by decide]
  rw [List.cons_append]
  have hb : ('\\' == '%') = false := by decide
  simp [List.isPrefixOf, hb]

/-- No header line is a definition line. -/
theorem filter_headerLines (n : Nat) : (headerLines n).filter isDefLine = [] := by
  have h1 : isDefLine "% CSF Values - Auto-generated by extract-values.py" = false := by
    decide
  have h2 := isDefLine_header2 n
  have h3 : isDefLine "% Do not edit manually - regenerate with \x27cstex-compile\x27"
      = false := by decide
  have h4 : isDefLine "" = false := by decide
  simp [headerLines, List.filter_cons, h1, h2, h3, h4]

/-- No trailer line is a definition line. -/
theorem filter_trailerLines : trailerLines.filter isDefLine = [] := by decide

/-! ## Concrete inputs used by the claim counterexamples and witnesses -/

/-- A log writing the name acc twice: first 0.80, then 0.94. -/
def accLog : List LogEntry :=
  [⟨some "value", some "acc", some ⟨"0.80"⟩, some "analyze.py", some 42⟩,
   ⟨some "value", some "acc", some ⟨"0.94"⟩, some "analyze.py", some 43⟩]

/-- The reduction of accLog under the empty manifest. -/
def accVs : List (String × ExtractedValue) :=
  [("acc", mkExtracted [] "acc" ⟨"0.94"⟩ "analyze.py" 43)]

/-- A one-record log declaring no value type. -/
def c6log : List LogEntry :=
  [⟨some "value", some "acc", some ⟨"0.94"⟩, some "analyze.py", some 42⟩]

/-- The extracted value c6log reduces to. -/
def c6ev : ExtractedValue :=
  ⟨"acc", ⟨"0.94"⟩, "0.94", "unknown", some "analyze.py", "unknown", some 42⟩

/-- A manifest with one catch-all step. -/
def c8steps : List PipelineStep := [⟨"s", "python a.py", [], ["*"], none⟩]

/-- A document with a csflink marker before a csfvaluelink marker. -/
def c8doc : Str := "\\csflink\x7bfig\x7d \\csfvaluelink\x7bacc\x7d".data

/-- The first discovery output entry for c8doc: the later value marker. -/
def c8a1 : DiscoveredArtifact := ⟨"value", "acc".data, 14, 32, "s", "a.py", []⟩

/-- The second discovery output entry for c8doc: the earlier artifact
marker. -/
def c8a2 : DiscoveredArtifact := ⟨"artifact", "fig".data, 0, 13, "s", "a.py", []⟩

/-- A document holding exactly one value marker. -/
def c4doc : Str := "\\csfvaluelink\x7bacc\x7d".data

/-- The discovery output for c4doc under the catch-all manifest. -/
def c4arts : List DiscoveredArtifact := [⟨"value", "acc".data, 0, 18, "s", "a.py", []⟩]

/-- First-declared of two steps with overlapping output patterns. -/
def c3s1 : PipelineStep := ⟨"first", "python a.py", [], ["fig_*"], none⟩

/-- Second-declared of two steps with overlapping output patterns. -/
def c3s2 : PipelineStep := ⟨"second", "python b.py", [], ["fig_*.png"], none⟩

/-- A value record missing the required name key. -/
def c10entry : LogEntry := ⟨some "value", none, some ⟨"1.0"⟩, some "a.py", some 1⟩

/-! ## The claims -/

/-- Claim C1, amended: matching a candidate name against a step whose output
patterns hold the glob pattern succeeds exactly when some PREFIX of the
candidate fully matches the regex the code builds from the pattern, in which
the star run, the question mark and also a literal dot of the pattern match
arbitrary non-newline characters: the match is anchored at the start of the
candidate but not at its end, so it is a prefix search rather than the
full-string glob match the spec states (and also not a substring search). -/
theorem glob_match_prefix_semantics :
    (∀ (ps : List RTok) (s : Str),
      reMatch s ps = true ↔ ∃ t, t <+: s ∧ globFull t ps = true)
    ∧ ∀ (fs : List String) (nm cmd : String) (ins : List String)
        (flk : Option String) (pat : String) (a : Str),
        (matchArtifactToStep fs [⟨nm, cmd, ins, [pat], flk⟩] a).isSome
          = reMatch a (globTokens pat.data) := by
  constructor
  · intro ps s
    constructor
    · exact fun h => reMatch_exists s ps h
    · rintro ⟨t, ⟨r, rfl⟩, hfull⟩
      exact globFull_reMatch t ps r hfull
  · intro fs nm cmd ins flk pat a
    by_cases h : reMatch a (globTokens pat.data)
    · simp [matchArtifactToStep, stepOutputsMatch, h]
    · simp [matchArtifactToStep, stepOutputsMatch, h]

/-- Claim C1 counterexample: the code accepts fig_1_png and fig_1.png.bak
for the pattern fig_ star dot png while the anchored full-string glob of the
spec rejects both; the worked examples of the spec do hold. -/
theorem glob_not_fullstring_cex :
    codeGlobMatch "fig_*.png" "fig_1_png" = true
    ∧ specGlobMatch "fig_*.png" "fig_1_png" = false
    ∧ codeGlobMatch "fig_*.png" "fig_1.png.bak" = true
    ∧ specGlobMatch "fig_*.png" "fig_1.png.bak" = false
    ∧ codeGlobMatch "fig_*.png" "fig_1.png" = true
    ∧ codeGlobMatch "fig_*.png" "fig_1.pdf" = false
    ∧ codeGlobMatch "fig_*.png" "sub/fig_1.png" = false := by decide

/-- Claim C1 witness: the characterization at one pattern and candidate, and
the single-pattern step match agreeing with the regex match. -/
theorem glob_match_prefix_semantics_w :
    (reMatch "fig_1.png.bak".data (globTokens "fig_*.png".data) = true
      ↔ ∃ t, t <+: "fig_1.png.bak".data
          ∧ globFull t (globTokens "fig_*.png".data) = true)
    ∧ (matchArtifactToStep [] [⟨"plots", "python plot.py", [], ["fig_*.png"], none⟩]
        "fig_1.png".data).isSome
      = reMatch "fig_1.png".data (globTokens "fig_*.png".data) :=
  ⟨glob_match_prefix_semantics.1 _ _,
   glob_match_prefix_semantics.2 [] "plots" "python plot.py" [] none "fig_*.png" _⟩

/-- Claim C2: log reduction consumes only records whose type is the string
value, iterates in file order, and for a repeated name the last such record
wins: after a successful reduction, the dict entry at any name is exactly
the value built from the last value-typed record carrying that name. -/
theorem extract_last_write_wins (cfg : List PipelineStep) (entries : List LogEntry)
    (vs : List (String × ExtractedValue)) (n : String)
    (h : extractValuesFromLog cfg entries = Except.ok vs) :
    dictLookup vs n = (lastValueRecord n entries).map (evOfEntry cfg) :=
  extractAux_lookup cfg n entries [] none vs h rfl

/-- Claim C2 witness: on the log writing acc as 0.80 then 0.94, the reduced
value of acc is 0.94. -/
theorem extract_last_write_wins_w :
    extractValuesFromLog [] accLog = Except.ok accVs
    ∧ dictLookup accVs "acc" = (lastValueRecord "acc" accLog).map (evOfEntry [])
    ∧ (dictLookup accVs "acc").map (fun ev => ev.value) = some ⟨"0.94"⟩ :=
  ⟨by decide, extract_last_write_wins [] accLog accVs "acc" (by decide), by decide⟩

/-- Claim C3: both matchers return the first-declared matching step
whatever steps follow it, and resolving a list of candidates is pointwise,
so each result is independent of the ordering of the candidates. -/
theorem first_declared_step_wins :
    (∀ (fs : List String) (pre : List PipelineStep) (s : PipelineStep)
        (post : List PipelineStep) (a : Str),
        stepOutputsMatch s a = true →
        (∀ s2 ∈ pre, stepOutputsMatch s2 a = false) →
        matchArtifactToStep fs (pre ++ s :: post) a = some (mkArtifactMeta fs s a))
    ∧ (∀ (pre : List PipelineStep) (s : PipelineStep) (post : List PipelineStep)
        (script : String),
        strContains s.cmd script = true →
        (∀ s2 ∈ pre, strContains s2.cmd script = false) →
        findStepForScript (pre ++ s :: post) script = some s.name)
    ∧ ∀ (fs : List String) (steps : List PipelineStep) (cands cands2 : List Str),
        cands.Perm cands2 →
        (cands.map (matchArtifactToStep fs steps)).Perm
          (cands2.map (matchArtifactToStep fs steps)) := by
  refine ⟨?_, ?_, ?_⟩
  · intro fs pre s post a hs
    induction pre with
    | nil => intro _; simp [matchArtifactToStep, hs]
    | cons p pre' ih =>
      intro hpre
      rw [List.cons_append, matchArtifactToStep,
        if_neg (by simp [hpre p (List.mem_cons_self p pre')])]
      exact ih fun s2 h2 => hpre s2 (List.mem_cons_of_mem p h2)
  · intro pre s post script hs
    induction pre with
    | nil => intro _; simp [findStepForScript, hs]
    | cons p pre' ih =>
      intro hpre
      rw [List.cons_append, findStepForScript,
        if_neg (by simp [hpre p (List.mem_cons_self p pre')])]
      exact ih fun s2 h2 => hpre s2 (List.mem_cons_of_mem p h2)
  · exact fun fs steps cands cands2 h => h.map _

/-- Claim C3 witness: of two steps with overlapping patterns the first wins
for the artifact and the script matcher, and a swapped candidate list gives
the permuted results. -/
theorem first_declared_step_wins_w :
    matchArtifactToStep [] [c3s1, c3s2] "fig_1.png".data
      = some (mkArtifactMeta [] c3s1 "fig_1.png".data)
    ∧ findStepForScript [c3s1, c3s2] "a.py" = some "first"
    ∧ (List.map (matchArtifactToStep [] [c3s1, c3s2])
        ["fig_1.png".data, "x".data]).Perm
       (List.map (matchArtifactToStep [] [c3s1, c3s2])
        ["x".data, "fig_1.png".data]) :=
  ⟨first_declared_step_wins.1 [] [] c3s1 [c3s2] "fig_1.png".data (by decide)
      (by intro s2 h2; exact absurd h2 (List.not_mem_nil s2)),
   first_declared_step_wins.2.1 [] c3s1 [c3s2] "a.py" (by decide)
      (by intro s2 h2; exact absurd h2 (List.not_mem_nil s2)),
   first_declared_step_wins.2.2 [] [c3s1, c3s2] _ _
      (List.Perm.swap "x".data "fig_1.png".data [])⟩

/-- Claim C4, amended: an unmatched reference never raises.  In the
log-value path the value is kept and marked with the step name unknown; in
the marker-discovery path an unmatched marker is warned about and DROPPED,
so the output holds exactly one entry per MATCHED marker rather than one
per marker. -/
theorem unmatched_reference_resolution :
    (∀ (cfg : List PipelineStep) (n : String) (v : PyVal) (fp : String) (ln : Int),
      findStepForScript cfg fp = none →
      extractValuesFromLog cfg [⟨some "value", some n, some v, some fp, some ln⟩]
        = Except.ok [(n, ⟨n, v, v.render, "unknown", some fp, "unknown", some ln⟩)])
    ∧ ∀ (steps : List PipelineStep) (content : Str) (arts : List DiscoveredArtifact),
        discoverArtifactsInLatex steps content = Except.ok arts →
        arts.length = ((findMarkers content).filter (markerMatched steps)).length := by
  constructor
  · intro cfg n v fp ln h
    simp [extractValuesFromLog, extractAux, dictInsert, mkExtracted, pyOr, h]
  · intro steps content arts h
    have harts := discoverGo_ok steps (findMarkers content) [] arts h
    rw [List.nil_append] at harts
    rw [harts, length_filterMap_eq]
    have hfe : (fun a => (markerToArtifact steps a).isSome) = markerMatched steps :=
      funext (markerToArtifact_isSome steps)
    rw [hfe]

/-- Claim C4 counterexample: a document with one unmatched value marker
discovers one marker but the output is empty: no entry marked unknown is
produced for it. -/
theorem unmatched_marker_dropped_cex :
    (findMarkers c4doc).length = 1
    ∧ discoverArtifactsInLatex [] c4doc = Except.ok []
    ∧ (0 : Nat) ≠ 1 := by decide

/-- Claim C4 witness: a log value with a script no step command contains is
kept with step unknown, and the matched-marker count of a concrete
discovery run equals its output length. -/
theorem unmatched_reference_resolution_w :
    extractValuesFromLog []
      [⟨some "value", some "r2", some ⟨"0.5"⟩, some "fit.py", some 7⟩]
      = Except.ok [("r2", ⟨"r2", ⟨"0.5"⟩, "0.5", "unknown", some "fit.py",
          "unknown", some 7⟩)]
    ∧ c4arts.length = ((findMarkers c4doc).filter (markerMatched c8steps)).length :=
  ⟨unmatched_reference_resolution.1 [] "r2" ⟨"0.5"⟩ "fit.py" 7 (by decide),
   unmatched_reference_resolution.2 c8steps c4doc c4arts (by decide)⟩

/-- Claim C5: the injection table is a deterministic function of the
rendered fields of the value dict (so re-rendering an unchanged log is
byte-identical), and for a nonempty dict it is the newline-join of the
header, one definition line per value in dict iteration order, and the
trailer: the definition lines of the output are exactly the values in
order. -/
theorem injection_table_rendering :
    (∀ v1 v2 : List (String × ExtractedValue),
      v1.map projEV = v2.map projEV → generateValuesTex v1 = generateValuesTex v2)
    ∧ ∀ values : List (String × ExtractedValue), values ≠ [] →
        generateValuesTex values
          = String.intercalate "\n" (generateValuesTexLines values)
        ∧ (generateValuesTexLines values).filter isDefLine
          = values.map fun p => defLine p.1 p.2 := by
  constructor
  · intro v1 v2 hproj
    have hlen : v1.length = v2.length := by
      simpa using congrArg List.length hproj
    have hmap : (v1.map fun p => defLine p.1 p.2)
        = v2.map fun p => defLine p.1 p.2 := by
      have h1 : ∀ w : List (String × ExtractedValue),
          (w.map fun p => defLine p.1 p.2) = (w.map projEV).map defLineOf := by
        intro w
        rw [List.map_map]
        rfl
      rw [h1 v1, h1 v2, hproj]
    cases v1 with
    | nil =>
      cases v2 with
      | nil => rfl
      | cons b bs => simp at hlen
    | cons a as =>
      cases v2 with
      | nil => simp at hlen
      | cons b bs =>
        unfold generateValuesTex generateValuesTexLines
        rw [if_neg (by simp), if_neg (by simp), hlen, hmap]
  · intro values hne
    refine ⟨?_, ?_⟩
    · unfold generateValuesTex
      rw [if_neg (by cases values with
        | nil => exact absurd rfl hne
        | cons a as => simp)]
    · unfold generateValuesTexLines
      rw [List.filter_append, List.filter_append, filter_headerLines,
        filter_trailerLines, List.append_nil, List.nil_append]
      refine List.filter_eq_self.mpr ?_
      intro l hl
      obtain ⟨p, _, rfl⟩ := List.mem_map.mp hl
      exact isDefLine_defLine p.1 p.2

/-- Claim C5 witness: the rendering facts at one concrete value dict. -/
theorem injection_table_rendering_w :
    generateValuesTex accVs = generateValuesTex accVs
    ∧ (generateValuesTex accVs
        = String.intercalate "\n" (generateValuesTexLines accVs)
      ∧ (generateValuesTexLines accVs).filter isDefLine
        = accVs.map fun p => defLine p.1 p.2) :=
  ⟨injection_table_rendering.1 accVs accVs rfl,
   injection_table_rendering.2 accVs (by decide)⟩

/-- Claim C6, amended: every ExtractedValue produced by log reduction has
value_type unknown, the dataclass default: the log-reduction path never
sets a value type, so it does not default to the string value. -/
theorem value_type_always_unknown (cfg : List PipelineStep) (entries : List LogEntry)
    (vs : List (String × ExtractedValue)) (n : String) (ev : ExtractedValue)
    (h : extractValuesFromLog cfg entries = Except.ok vs)
    (h2 : dictLookup vs n = some ev) : ev.value_type = "unknown" := by
  have h3 := extractAux_lookup cfg n entries [] none vs h rfl
  rw [h2] at h3
  cases hl : lastValueRecordAux n entries none with
  | none => rw [hl] at h3; simp at h3
  | some e =>
    rw [hl] at h3
    simp only [Option.map_some', Option.some.injEq] at h3
    rw [h3]
    rfl

/-- Claim C6 counterexample: reducing a record that declares no value type
yields value_type unknown, not value. -/
theorem value_type_default_cex :
    extractValuesFromLog [] c6log = Except.ok [("acc", c6ev)]
    ∧ c6ev.value_type = "unknown"
    ∧ ("unknown" : String) ≠ "value" := by decide

/-- Claim C6 witness: the amended fact at the concrete one-record log. -/
theorem value_type_always_unknown_w : c6ev.value_type = "unknown" :=
  value_type_always_unknown [] c6log [("acc", c6ev)] "acc" c6ev (by decide) (by decide)

/-- Claim C7, amended: the marker scanner recognizes exactly the two fixed
forms csfvaluelink and csflink, each carrying one braced nonempty name: in
a document whose text before such a marker holds no backslash, scanning
yields a candidate with that name and kind, and every scanned candidate is
of one of these two kinds.  The forms valuelink and link of the spec are
not recognized. -/
theorem marker_forms_recognized :
    (∀ pre name post : Str, (∀ c ∈ pre, c ≠ '\\') → name ≠ [] → '\x7d' ∉ name →
      (MarkerMatch.mk "value" pre.length name
          (pre.length + (valueMarkerChars.length + name.length + 1)))
        ∈ findMarkers (pre ++ (valueMarkerChars ++ (name ++ '\x7d' :: post))))
    ∧ (∀ pre name post : Str, (∀ c ∈ pre, c ≠ '\\') → name ≠ [] → '\x7d' ∉ name →
      (MarkerMatch.mk "artifact" pre.length name
          (pre.length + (artifactMarkerChars.length + name.length + 1)))
        ∈ findMarkers (pre ++ (artifactMarkerChars ++ (name ++ '\x7d' :: post))))
    ∧ ∀ (content : Str) (m : MarkerMatch), m ∈ findMarkers content →
        m.kind = "value" ∨ m.kind = "artifact" := by
  have hv : valueMarkerChars = '\\' :: "csfvaluelink\x7b".data := by decide
  have ha : artifactMarkerChars = '\\' :: "csflink\x7b".data := by decide
  refine ⟨?_, ?_, ?_⟩
  · intro pre name post hpre hn hb
    obtain ⟨tl, htl⟩ :=
      scanMarkers_found "csfvaluelink\x7b".data pre name post hpre hn hb
    unfold findMarkers
    refine List.mem_append_left _ ?_
    rw [hv, htl, List.map_cons]
    exact List.mem_cons_self _ _
  · intro pre name post hpre hn hb
    obtain ⟨tl, htl⟩ :=
      scanMarkers_found "csflink\x7b".data pre name post hpre hn hb
    unfold findMarkers
    refine List.mem_append_right _ ?_
    rw [ha, htl, List.map_cons]
    exact List.mem_cons_self _ _
  · intro content m hm
    unfold findMarkers at hm
    rcases List.mem_append.mp hm with hm | hm
    · obtain ⟨r, _, rfl⟩ := List.mem_map.mp hm
      exact Or.inl rfl
    · obtain ⟨r, _, rfl⟩ := List.mem_map.mp hm
      exact Or.inr rfl

/-- Claim C7 counterexample: a document holding the markers valuelink and
link in the forms the spec states yields no scanned candidate and no
discovered artifact at all. -/
theorem spec_marker_names_cex :
    findMarkers "\\valuelink\x7bacc\x7d \\link\x7bfig\x7d".data = []
    ∧ discoverArtifactsInLatex c8steps "\\valuelink\x7bacc\x7d \\link\x7bfig\x7d".data
      = Except.ok [] := by decide

/-- Claim C7 witness: both recognized forms found at a concrete offset, and
one concrete candidate is of a recognized kind. -/
theorem marker_forms_recognized_w :
    (MarkerMatch.mk "value" 2 "acc".data
        (2 + (valueMarkerChars.length + "acc".data.length + 1))
      ∈ findMarkers ("% ".data ++ (valueMarkerChars ++ ("acc".data ++ '\x7d' :: []))))
    ∧ (MarkerMatch.mk "artifact" 2 "fig".data
        (2 + (artifactMarkerChars.length + "fig".data.length + 1))
      ∈ findMarkers ("% ".data ++ (artifactMarkerChars ++ ("fig".data ++ '\x7d' :: []))))
    ∧ (("value" : String) = "value" ∨ ("value" : String) = "artifact") :=
  ⟨marker_forms_recognized.1 "% ".data "acc".data [] (by decide) (by decide) (by decide),
   marker_forms_recognized.2.1 "% ".data "fig".data [] (by decide) (by decide) (by decide),
   marker_forms_recognized.2.2 "\\csfvaluelink\x7bacc\x7d".data
     ⟨"value", 0, "acc".data, 18⟩ (by decide)⟩

/-- Claim C8, amended: discovery output is grouped by marker kind, all
csfvaluelink entries first and then all csflink entries; within each kind
the entries appear in strictly increasing document-offset order, but across
kinds global left-to-right order does not hold. -/
theorem per_kind_document_order (steps : List PipelineStep) (content : Str)
    (arts : List DiscoveredArtifact)
    (h : discoverArtifactsInLatex steps content = Except.ok arts) :
    List.Chain' (· < ·)
      ((arts.filter fun a => a.type == "value").map fun a => a.match_start)
    ∧ List.Chain' (· < ·)
      ((arts.filter fun a => a.type == "artifact").map fun a => a.match_start) := by
  have harts := discoverGo_ok steps (findMarkers content) [] arts h
  rw [List.nil_append] at harts
  subst harts
  unfold findMarkers
  rw [List.filterMap_append]
  have hvk : ∀ a ∈ (((scanMarkers valueMarkerChars content 0).map
      fun r => MarkerMatch.mk "value" r.1 r.2.1 r.2.2).filterMap
        (markerToArtifact steps)), a.type = "value" := by
    apply mem_filterMap_type
    intro m hm
    obtain ⟨r, _, rfl⟩ := List.mem_map.mp hm
    rfl
  have hak : ∀ a ∈ (((scanMarkers artifactMarkerChars content 0).map
      fun r => MarkerMatch.mk "artifact" r.1 r.2.1 r.2.2).filterMap
        (markerToArtifact steps)), a.type = "artifact" := by
    apply mem_filterMap_type
    intro m hm
    obtain ⟨r, _, rfl⟩ := List.mem_map.mp hm
    rfl
  constructor
  · rw [List.filter_append,
      List.filter_eq_self.mpr (fun a ha => by rw [hvk a ha]; exact beq_self_eq_true _),
      List.filter_eq_nil_iff.mpr (fun a ha => by rw [hak a ha]; decide),
      List.append_nil]
    exact chain_filterMap_scan steps "value" _
      (scanMarkersF_chain valueMarkerChars content.length content 0)
  · rw [List.filter_append,
      List.filter_eq_nil_iff.mpr (fun a ha => by rw [hvk a ha]; decide),
      List.filter_eq_self.mpr (fun a ha => by rw [hak a ha]; exact beq_self_eq_true _),
      List.nil_append]
    exact chain_filterMap_scan steps "artifact" _
      (scanMarkersF_chain artifactMarkerChars content.length content 0)

/-- Claim C8 counterexample: with one catch-all step, a document whose
csflink marker precedes its csfvaluelink marker is discovered with the
value entry first although it starts later: the earlier-offset entry does
not precede. -/
theorem cross_kind_order_cex :
    discoverArtifactsInLatex c8steps c8doc = Except.ok [c8a1, c8a2]
    ∧ c8a2.match_start < c8a1.match_start
    ∧ c8a1.type = "value" ∧ c8a2.type = "artifact" := by decide

/-- Claim C8 witness: the per-kind ordering at the concrete two-marker
discovery run. -/
theorem per_kind_document_order_w :
    List.Chain' (· < ·)
      (([c8a1, c8a2].filter fun a => a.type == "value").map fun a => a.match_start)
    ∧ List.Chain' (· < ·)
      (([c8a1, c8a2].filter fun a => a.type == "artifact").map fun a => a.match_start) :=
  per_kind_document_order c8steps c8doc [c8a1, c8a2] (by decide)

/-- Claim C9: a missing log file reads as the empty record sequence rather
than failing, and the generator then returns the explicit no-values marker
line, which is not empty output. -/
theorem missing_log_yields_marker :
    readProvenanceLog none = Except.ok []
    ∧ (∀ cfg : List PipelineStep,
        renderFromFile cfg none = Except.ok "% No values extracted\n")
    ∧ ("% No values extracted\n" : String) ≠ "" :=
  ⟨rfl, fun _ => rfl, by decide⟩

/-- Claim C10: a record of type value lacking any of the required keys
name, value, filepath or lineno makes the whole extraction fail with a
KeyError, wherever the record sits in the log: it is fatal, not skipped. -/
theorem missing_field_fatal (cfg : List PipelineStep) (pre : List LogEntry)
    (e : LogEntry) (post : List LogEntry) (htype : e.type = some "value")
    (hmiss : e.name = none ∨ e.value = none ∨ e.filepath = none ∨ e.lineno = none)
    (vs : List (String × ExtractedValue)) :
    extractValuesFromLog cfg (pre ++ e :: post) ≠ Except.ok vs :=
  extractAux_broken cfg e post htype hmiss pre [] vs

/-- Claim C10 witness: a value record with no name key aborts extraction
with the KeyError for name. -/
theorem missing_field_fatal_w :
    extractValuesFromLog [] [c10entry] ≠ Except.ok []
    ∧ extractValuesFromLog [] [c10entry] = Except.error "KeyError: name" :=
  ⟨missing_field_fatal [] [] c10entry [] rfl (Or.inl rfl) [], by decide⟩

end CSTex
